import Mathlib

/-!
Verification of the somnia technical-analysis / LSTM-forecasting repository.

The Python sources compute over IEEE-754 doubles via numpy/pandas.  We embed
values in an extended-rational domain `PVal` that carries NaN and the two
signed infinities, with the operations the source actually performs (addition,
subtraction, multiplication, division, comparison) following IEEE semantics;
exact rational arithmetic stands in for float arithmetic, which is the
tolerance level at which the specification states its numeric laws.

Rolling standard deviations take a square root of a rational sample variance,
which is irrational in general; the embedding therefore takes the square-root
function on nonnegative rationals as an explicit parameter `s`, and every
theorem constrains `s` only at arguments where the source determines it
(in all concrete evaluations below the variance is 0 and only `s 0 = 0` is
used).
-/

/-- Extended numeric domain modelling the IEEE-754 double values produced by
numpy/pandas in the repository: NaN, a signed infinity, or a finite value
(represented exactly as a rational). -/
inductive PVal where
  | nan : PVal
  | inf (pos : Bool) : PVal
  | num (q : ℚ) : PVal
deriving DecidableEq

/-- IEEE addition on the extended domain. -/
def PVal.add : PVal → PVal → PVal
  | .nan, _ => .nan
  | _, .nan => .nan
  | .inf b, .inf c => if b = c then .inf b else .nan
  | .inf b, .num _ => .inf b
  | .num _, .inf b => .inf b
  | .num a, .num b => .num (a + b)

/-- IEEE negation. -/
def PVal.neg : PVal → PVal
  | .nan => .nan
  | .inf b => .inf (!b)
  | .num a => .num (-a)

/-- IEEE subtraction. -/
def PVal.sub (x y : PVal) : PVal := x.add y.neg

/-- IEEE multiplication (`inf * 0 = NaN`). -/
def PVal.mul : PVal → PVal → PVal
  | .nan, _ => .nan
  | _, .nan => .nan
  | .inf b, .inf c => .inf (b = c)
  | .inf b, .num q => if q = 0 then .nan else .inf (b = decide (0 < q))
  | .num q, .inf b => if q = 0 then .nan else .inf (b = decide (0 < q))
  | .num a, .num b => .num (a * b)

/-- IEEE division: `0/0 = NaN`, `x/0 = ±inf` for `x ≠ 0` (the rational zero is
unsigned and treated as `+0`, matching every occurrence in the source),
`inf/inf = NaN`, `finite/inf = 0`. -/
def PVal.div : PVal → PVal → PVal
  | .nan, _ => .nan
  | _, .nan => .nan
  | .inf _, .inf _ => .nan
  | .inf b, .num q => if q = 0 then .inf b else .inf (b = decide (0 < q))
  | .num _, .inf _ => .num 0
  | .num a, .num b =>
      if b = 0 then (if a = 0 then .nan else .inf (decide (0 < a))) else .num (a / b)

/-- IEEE strict comparison as a boolean: any comparison with NaN is false. -/
def PVal.ltb : PVal → PVal → Bool
  | .nan, _ => false
  | _, .nan => false
  | .inf b, .inf c => !b && c
  | .inf b, .num _ => !b
  | .num _, .inf c => c
  | .num a, .num b => decide (a < b)

/-- IEEE non-strict comparison as a boolean: any comparison with NaN is false. -/
def PVal.leb : PVal → PVal → Bool
  | .nan, _ => false
  | _, .nan => false
  | .inf b, .inf c => (b == c) || (!b && c)
  | .inf b, .num _ => !b
  | .num _, .inf c => c
  | .num a, .num b => decide (a ≤ b)

/-- NaN test. -/
def PVal.isNan : PVal → Bool
  | .nan => true
  | _ => false

/-- Python's builtin round (also numpy's) rounds half to even. -/
def roundHalfEven (q : ℚ) : ℤ :=
  let f := ⌊q⌋
  let r := q - f
  if r < 1 / 2 then f
  else if 1 / 2 < r then f + 1
  else if f % 2 = 0 then f else f + 1

/-- `round(x, 2)` on a rational. -/
def round2 (q : ℚ) : ℚ := (roundHalfEven (q * 100) : ℚ) / 100

/-- `round(x, 4)` on a rational. -/
def round4 (q : ℚ) : ℚ := (roundHalfEven (q * 10000) : ℚ) / 10000

/-- `round(x, 2)` on the extended domain: NaN and infinities round to
themselves, as in Python. -/
def PVal.round2p : PVal → PVal
  | .num q => .num (round2 q)
  | x => x

theorem roundHalfEven_ge_floor (q : ℚ) : ⌊q⌋ ≤ roundHalfEven q := by
  unfold roundHalfEven
  dsimp only
  split
  · exact le_refl _
  · split
    · omega
    · split
      · exact le_refl _
      · omega

theorem roundHalfEven_le_ceil (q : ℚ) : roundHalfEven q ≤ ⌈q⌉ := by
  have hfc : ⌊q⌋ ≤ ⌈q⌉ := Int.floor_le_ceil q
  have hkey : (1 : ℚ) / 2 ≤ q - ⌊q⌋ → ⌊q⌋ + 1 ≤ ⌈q⌉ := by
    intro h
    have h0 : (⌊q⌋ : ℚ) < q := by
      have : (0 : ℚ) < 1 / 2 := by norm_num
      linarith
    have := Int.lt_ceil.mpr h0
    omega
  unfold roundHalfEven
  dsimp only
  split
  · exact hfc
  · rename_i h1
    push_neg at h1
    split
    · exact hkey h1
    · split
      · exact hfc
      · exact hkey h1

theorem round2_bounds (q lo hi : ℚ) (hlo : lo ≤ q) (hhi : q ≤ hi)
    (hlo100 : ∃ z : ℤ, (z : ℚ) = lo * 100) (hhi100 : ∃ z : ℤ, (z : ℚ) = hi * 100) :
    lo ≤ round2 q ∧ round2 q ≤ hi := by
  obtain ⟨zl, hzl⟩ := hlo100
  obtain ⟨zh, hzh⟩ := hhi100
  have h1 : (zl : ℚ) ≤ q * 100 := by nlinarith
  have h2 : q * 100 ≤ (zh : ℚ) := by nlinarith
  have hfl : zl ≤ ⌊q * 100⌋ := Int.le_floor.mpr h1
  have hcl : ⌈q * 100⌉ ≤ zh := Int.ceil_le.mpr h2
  have hA : zl ≤ roundHalfEven (q * 100) :=
    le_trans hfl (roundHalfEven_ge_floor _)
  have hB : roundHalfEven (q * 100) ≤ zh :=
    le_trans (roundHalfEven_le_ceil _) hcl
  constructor
  · have h3 : (zl : ℚ) ≤ (roundHalfEven (q * 100) : ℚ) := by exact_mod_cast hA
    unfold round2
    linarith
  · have h4 : (roundHalfEven (q * 100) : ℚ) ≤ (zh : ℚ) := by exact_mod_cast hB
    unfold round2
    linarith

/-- A fitted per-feature min-max scaler (`sklearn.preprocessing.MinMaxScaler`
with `feature_range=(0, 1)`): it records the minimum and maximum of the
fitting series. -/
structure Scaler where
  dataMin : ℚ
  dataMax : ℚ
deriving DecidableEq

instance : Inhabited Scaler := ⟨⟨0, 0⟩⟩

/-- sklearn scale factor `scale_ = 1 / (data_max - data_min)`, with
`_handle_zeros_in_scale` replacing a zero range by 1. -/
def Scaler.scaleF (s : Scaler) : ℚ :=
  1 / (if s.dataMax - s.dataMin = 0 then 1 else s.dataMax - s.dataMin)

/-- sklearn offset `min_ = feature_range_min - data_min * scale_` with
`feature_range = (0, 1)`. -/
def Scaler.minAdj (s : Scaler) : ℚ := 0 - s.dataMin * s.scaleF

/-- `MinMaxScaler.transform` on one value: `x * scale_ + min_`. -/
def Scaler.transform (s : Scaler) (x : ℚ) : ℚ := x * s.scaleF + s.minAdj

/-- `MinMaxScaler.inverse_transform` on one value: `(y - min_) / scale_`. -/
def Scaler.inverse (s : Scaler) (y : ℚ) : ℚ := (y - s.minAdj) / s.scaleF

/-- Fitting a scaler on a series records its minimum and maximum. -/
def Scaler.fit (data : List ℚ) : Scaler :=
  ⟨data.foldl min (data.headD 0), data.foldl max (data.headD 0)⟩

theorem Scaler.scaleF_ne_zero (s : Scaler) : s.scaleF ≠ 0 := by
  unfold Scaler.scaleF
  split
  · norm_num
  · rename_i h
    exact one_div_ne_zero h

/-- The exact algebraic round-trip law for any fitted scaler. -/
theorem Scaler.inverse_transform_eq (s : Scaler) (x : ℚ) :
    s.inverse (s.transform x) = x := by
  unfold Scaler.inverse Scaler.transform
  have h := s.scaleF_ne_zero
  field_simp

/-- `transform` applied on the extended domain (used when the prediction-module
scales recomputed feature rows, which may contain non-finite entries). -/
def Scaler.transformP (s : Scaler) : PVal → PVal
  | .nan => .nan
  | .inf b => PVal.add (PVal.mul (.inf b) (.num s.scaleF)) (.num s.minAdj)
  | .num q => .num (s.transform q)

/-- Categorical signals produced by the indicator library and the aggregator
(string constants in the Python source). -/
inductive Sig where
  | STRONG_BULLISH
  | BULLISH
  | BUY
  | OVERSOLD
  | NEUTRAL
  | OVERBOUGHT
  | BEARISH
  | SELL
  | STRONG_BEARISH
  | UNKNOWN
deriving DecidableEq

/-- Error kinds for the per-indicator error dictionaries.  The Python source
returns either the insufficient-data message from the explicit length guard
or a wrapped-exception message from the function's catch-all handler; the two
message families are distinguished here by constructor. -/
inductive IndErr where
  | insufficientData
  | invalidParam
deriving DecidableEq

/-- Indexing a price list as the pandas column does (indices used by the
source are always in bounds; the default is never observed there). -/
def priceAt (prices : List ℚ) (i : ℕ) : ℚ := prices.getD i 0

/-- Pointwise pandas `ewm(alpha, adjust=True).mean()` at index `t`:
the weighted average with weights `(1-alpha)^(t-j)`. -/
def ewmAdjAt (a : ℚ) (f : ℕ → ℚ) (t : ℕ) : ℚ :=
  (∑ j in Finset.range (t + 1), (1 - a) ^ (t - j) * f j) /
    (∑ j in Finset.range (t + 1), (1 - a) ^ (t - j))

/-- Gain series of `calculate_rsi`: `delta.where(delta > 0, 0)`; the leading
NaN of `diff()` fails the comparison and becomes 0. -/
def gainAt (prices : List ℚ) (i : ℕ) : ℚ :=
  if i = 0 then 0 else max 0 (priceAt prices i - priceAt prices (i - 1))

/-- Loss series of `calculate_rsi`: `-delta.where(delta < 0, 0)`. -/
def lossAt (prices : List ℚ) (i : ℕ) : ℚ :=
  if i = 0 then 0 else max 0 (priceAt prices (i - 1) - priceAt prices i)

/-- `RSI = 100 - 100/(1 + RS)` with `RS = avg_gain / avg_loss`, evaluated in
the IEEE domain (0/0 gives NaN, positive/0 gives +inf). -/
def rsiPointQ (g l : ℚ) : PVal :=
  PVal.sub (.num 100) (PVal.div (.num 100) (PVal.add (.num 1) (PVal.div (.num g) (.num l))))

/-- The RSI series of `TechnicalIndicators.calculate_rsi` at index `t`
(`ewm(alpha=1/period, min_periods=period)` on gains and losses yields NaN
before `period` observations). -/
def rsiEwmAt (prices : List ℚ) (period : ℕ) (t : ℕ) : PVal :=
  if t + 1 < period then .nan
  else rsiPointQ (ewmAdjAt (1 / period) (gainAt prices) t)
    (ewmAdjAt (1 / period) (lossAt prices) t)

/-- Last `n` elements of a list (`tolist()[-n:]`). -/
def lastN (n : ℕ) (xs : List α) : List α := xs.drop (xs.length - n)

/-- Result dictionary of `TechnicalIndicators.calculate_rsi`
(presentational message strings omitted). -/
inductive RsiRes where
  | err (e : IndErr)
  | ok (value : PVal) (signal : Sig) (period : ℕ) (history : List PVal)
deriving DecidableEq

/-- `TechnicalIndicators.calculate_rsi`.  A zero period would raise
`ZeroDivisionError` at `alpha=1/period` in Python, caught by the wrapper into
an error dictionary. -/
def calcRsi (prices : List ℚ) (period : ℕ) : RsiRes :=
  if prices.length < period + 1 then .err .insufficientData
  else if period = 0 then .err .invalidParam
  else
    let n := prices.length
    let v := rsiEwmAt prices period (n - 1)
    let sig := if PVal.leb (.num 70) v then Sig.OVERBOUGHT
               else if PVal.leb v (.num 30) then Sig.OVERSOLD
               else Sig.NEUTRAL
    let hist := lastN 10
      ((((List.range n).map (rsiEwmAt prices period)).filter
        (fun x => !x.isNan)).map PVal.round2p)
    .ok v.round2p sig period hist

/-- Pointwise pandas `ewm(span=w).mean()` (adjust defaults to True):
`alpha = 2/(span+1)`. -/
def emaSpanAt (span : ℕ) (f : ℕ → ℚ) (t : ℕ) : ℚ :=
  ewmAdjAt (2 / (span + 1)) f t

/-- MACD line of `calculate_macd`: fast EMA minus slow EMA. -/
def macdLineAt (prices : List ℚ) (fast slow : ℕ) (t : ℕ) : ℚ :=
  emaSpanAt fast (priceAt prices) t - emaSpanAt slow (priceAt prices) t

/-- Signal line: EMA of the MACD line over the signal period. -/
def signalLineAt (prices : List ℚ) (fast slow sigp : ℕ) (t : ℕ) : ℚ :=
  emaSpanAt sigp (macdLineAt prices fast slow) t

/-- Histogram: MACD line minus signal line. -/
def histogramAt (prices : List ℚ) (fast slow sigp : ℕ) (t : ℕ) : ℚ :=
  macdLineAt prices fast slow t - signalLineAt prices fast slow sigp t

/-- Result dictionary of `TechnicalIndicators.calculate_macd`. -/
inductive MacdRes where
  | err (e : IndErr)
  | ok (macd signal histogram : ℚ) (trend : Sig)
      (histMacd histSignal histHist : List ℚ)
deriving DecidableEq

/-- `TechnicalIndicators.calculate_macd`.  A zero span is rejected by pandas
`ewm` (ValueError), caught by the wrapper into an error dictionary. -/
def calcMacd (prices : List ℚ) (fast slow sigp : ℕ) : MacdRes :=
  if prices.length < slow + sigp then .err .insufficientData
  else if fast = 0 ∨ slow = 0 ∨ sigp = 0 then .err .invalidParam
  else
    let n := prices.length
    let cm := macdLineAt prices fast slow (n - 1)
    let cs := signalLineAt prices fast slow sigp (n - 1)
    let ch := histogramAt prices fast slow sigp (n - 1)
    let ph := if 1 < n then histogramAt prices fast slow sigp (n - 2) else 0
    let trend := if cs < cm ∧ ph ≤ 0 ∧ 0 < ch then Sig.BUY
                 else if cm < cs ∧ 0 ≤ ph ∧ ch < 0 then Sig.SELL
                 else if cs < cm then Sig.BULLISH
                 else Sig.BEARISH
    .ok (round4 cm) (round4 cs) (round4 ch) trend
      (lastN 10 ((List.range n).map (fun t => round4 (macdLineAt prices fast slow t))))
      (lastN 10 ((List.range n).map (fun t => round4 (signalLineAt prices fast slow sigp t))))
      (lastN 10 ((List.range n).map (fun t => round4 (histogramAt prices fast slow sigp t))))

/-- Pointwise pandas `rolling(window).mean()` over a rational series: NaN
until the window is full. -/
def rollMeanP (w : ℕ) (f : ℕ → ℚ) (t : ℕ) : PVal :=
  if t + 1 < w then .nan
  else .num ((∑ j in Finset.range w, f (t - j)) / w)

/-- Sample variance (ddof = 1) of the length-`w` window ending at `t`. -/
def sampleVarAt (w : ℕ) (f : ℕ → ℚ) (t : ℕ) : ℚ :=
  let m := (∑ j in Finset.range w, f (t - j)) / w
  (∑ j in Finset.range w, (f (t - j) - m) ^ 2) / (w - 1)

/-- Pointwise pandas `rolling(window).std()` (ddof = 1): NaN until the window
is full, NaN for a singleton window, otherwise the square root `s` of the
sample variance. -/
def rollStdP (s : ℚ → ℚ) (w : ℕ) (f : ℕ → ℚ) (t : ℕ) : PVal :=
  if t + 1 < w then .nan
  else if w ≤ 1 then .nan
  else .num (s (sampleVarAt w f t))

/-- Window of `w` values ending at index `t` (the pandas rolling window). -/
def windowVals (w : ℕ) (f : ℕ → ℚ) (t : ℕ) : List ℚ :=
  (List.range w).map (fun j => f (t - j))

/-- Pointwise pandas `rolling(window).min()`. -/
def rollMinP (w : ℕ) (f : ℕ → ℚ) (t : ℕ) : PVal :=
  if t + 1 < w then .nan else .num ((windowVals w f t).foldr min (f t))

/-- Pointwise pandas `rolling(window).max()`. -/
def rollMaxP (w : ℕ) (f : ℕ → ℚ) (t : ℕ) : PVal :=
  if t + 1 < w then .nan else .num ((windowVals w f t).foldr max (f t))

/-- Pointwise pandas `rolling(window).mean()` over an extended-domain series
(used for the stochastic %D line, whose %K input can be NaN): NaN anywhere in
a full window propagates, as pandas produces with the default
`min_periods = window`. -/
def rollMeanPV (w : ℕ) (g : ℕ → PVal) (t : ℕ) : PVal :=
  if t + 1 < w then .nan
  else PVal.div (((List.range w).map (fun j => g (t - j))).foldr PVal.add (.num 0)) (.num w)

/-- `%K = (close - lowest_low) / (highest_high - lowest_low) * 100`. -/
def kPercentAt (closeF highF lowF : ℕ → ℚ) (k : ℕ) (t : ℕ) : PVal :=
  PVal.mul
    (PVal.div (PVal.sub (.num (closeF t)) (rollMinP k lowF t))
      (PVal.sub (rollMaxP k highF t) (rollMinP k lowF t)))
    (.num 100)

/-- `%D`: rolling mean of `%K` over the `d` period. -/
def dPercentAt (closeF highF lowF : ℕ → ℚ) (k d : ℕ) (t : ℕ) : PVal :=
  rollMeanPV d (kPercentAt closeF highF lowF k) t

/-- Result dictionary of `TechnicalIndicators.calculate_stochastic`. -/
inductive StochRes where
  | err (e : IndErr)
  | ok (kPercent dPercent : PVal) (signal : Sig) (kPeriod dPeriod : ℕ)
      (historyK historyD : List PVal)
deriving DecidableEq

/-- `TechnicalIndicators.calculate_stochastic`.  `highs if highs else prices`
falls back to the close prices when the optional series is absent or empty
(Python truthiness); a zero rolling window is rejected by pandas, caught by
the wrapper. -/
def calcStochastic (prices : List ℚ) (highs lows : Option (List ℚ))
    (k d : ℕ) : StochRes :=
  if prices.length < k + d then .err .insufficientData
  else if k = 0 ∨ d = 0 then .err .invalidParam
  else
    let hs := match highs with | some l => if l = [] then prices else l | none => prices
    let ls := match lows with | some l => if l = [] then prices else l | none => prices
    let n := prices.length
    let cF := priceAt prices
    let hF := priceAt hs
    let lF := priceAt ls
    let kP := kPercentAt cF hF lF k
    let dP := dPercentAt cF hF lF k d
    let curK := kP (n - 1)
    let curD := dP (n - 1)
    let prevK := if 1 < n then kP (n - 2) else curK
    let prevD := if 1 < n then dP (n - 2) else curD
    let sig :=
      if PVal.leb (.num 80) curK && PVal.leb (.num 80) curD then Sig.OVERBOUGHT
      else if PVal.leb curK (.num 20) && PVal.leb curD (.num 20) then Sig.OVERSOLD
      else if PVal.ltb curD curK && PVal.leb prevK prevD then Sig.BUY
      else if PVal.ltb curK curD && PVal.leb prevD prevK then Sig.SELL
      else if PVal.ltb curD curK then Sig.BULLISH
      else Sig.BEARISH
    .ok curK.round2p curD.round2p sig k d
      (lastN 10 ((((List.range n).map kP).filter (fun x => !x.isNan)).map PVal.round2p))
      (lastN 10 ((((List.range n).map dP).filter (fun x => !x.isNan)).map PVal.round2p))

/-- Result dictionary of `TechnicalIndicators.calculate_bollinger_bands`. -/
inductive BollRes where
  | err (e : IndErr)
  | ok (currentPrice : ℚ) (upperBand middleBand lowerBand : PVal) (signal : Sig)
      (bandwidth : PVal) (bandPos : PVal)
deriving DecidableEq

/-- `TechnicalIndicators.calculate_bollinger_bands`; `s` is the square root
used by `rolling(period).std()`.  The band position
`(price - lower) / (upper - lower)` is computed with no guard on a zero-width
band: on degenerate input it evaluates to NaN in the IEEE domain and is
returned inside a normal (non-error) result dictionary. -/
def calcBollinger (s : ℚ → ℚ) (prices : List ℚ) (period : ℕ) (stdDev : ℚ) : BollRes :=
  if prices.length < period then .err .insufficientData
  else if period = 0 then .err .invalidParam
  else
    let n := prices.length
    let f := priceAt prices
    let sma := rollMeanP period f
    let std := rollStdP s period f
    let upper := fun t => PVal.add (sma t) (PVal.mul (std t) (.num stdDev))
    let lower := fun t => PVal.sub (sma t) (PVal.mul (std t) (.num stdDev))
    let cp : ℚ := f (n - 1)
    let cu := upper (n - 1)
    let cl := lower (n - 1)
    let cm := sma (n - 1)
    let bandPos := PVal.div (PVal.sub (.num cp) cl) (PVal.sub cu cl)
    let sig := if PVal.leb cu (.num cp) then Sig.OVERBOUGHT
               else if PVal.leb (.num cp) cl then Sig.OVERSOLD
               else if PVal.ltb cm (.num cp) then Sig.BULLISH
               else Sig.BEARISH
    let bandwidth := PVal.round2p (PVal.mul (PVal.div (PVal.sub cu cl) cm) (.num 100))
    .ok (round2 cp) cu.round2p cm.round2p cl.round2p sig bandwidth bandPos.round2p

/-- One named indicator result as seen by the aggregation loop of
`calculate_multiple_indicators`: either an error dictionary or a normal
dictionary whose signal is read from the key `signal` (or `trend` for MACD);
`none` models a dictionary carrying neither key. -/
inductive Entry where
  | errE : Entry
  | okE (signal : Option Sig) : Entry
deriving DecidableEq

/-- The fixed `signal_weights` table; `UNKNOWN` is a key absent from it. -/
def weightOf : Sig → Option ℤ
  | .STRONG_BULLISH => some 3
  | .BULLISH => some 2
  | .BUY => some 2
  | .OVERSOLD => some 1
  | .NEUTRAL => some 0
  | .BEARISH => some (-2)
  | .SELL => some (-2)
  | .STRONG_BEARISH => some (-3)
  | .OVERBOUGHT => some (-1)
  | .UNKNOWN => none

/-- The score an entry contributes, if any: error entries and entries whose
signal is missing or not in the weight table are skipped. -/
def Entry.score : Entry → Option ℤ
  | .errE => none
  | .okE none => none
  | .okE (some s) => weightOf s

/-- The scores accumulated by the aggregation loop, in order. -/
def validScores (entries : List Entry) : List ℤ :=
  entries.filterMap Entry.score

/-- The `summary` dictionary of `calculate_multiple_indicators`
(per-indicator breakdown and recommendation text omitted). -/
structure Summary where
  overallSignal : Sig
  averageScore : ℚ
  totalScore : ℤ
  validIndicators : ℕ
  confidence : ℚ
deriving DecidableEq

/-- Threshold classification of the average score. -/
def classify (avg : ℚ) : Sig :=
  if 3 / 2 ≤ avg then .STRONG_BULLISH
  else if 1 / 2 ≤ avg then .BULLISH
  else if avg ≤ -(3 / 2) then .STRONG_BEARISH
  else if avg ≤ -(1 / 2) then .BEARISH
  else .NEUTRAL

/-- The aggregation summary of `calculate_multiple_indicators`: total and
count over the valid entries, average `total/count`, threshold
classification, `confidence = min(100, |avg| * 30)`; with zero valid
indicators the overall signal is UNKNOWN and the average is set to 0. -/
def aggregate (entries : List Entry) : Summary :=
  let total := (validScores entries).sum
  let count := (validScores entries).length
  if 0 < count then
    let avg : ℚ := (total : ℚ) / count
    ⟨classify avg, round2 avg, total, count, min 100 (|avg| * 30)⟩
  else
    ⟨.UNKNOWN, round2 0, total, count, min 100 (|(0 : ℚ)| * 30)⟩

/-- Rolling-mean RSI of the LSTM modules (`calculate_rsi` in `lstm_train.py`
and `predict_lstm_eth.py`): simple 14-window rolling means of gains and
losses, then `100 - 100/(1 + rs)` in the IEEE domain. -/
def rsiRollAt (cl : List ℚ) (t : ℕ) : PVal :=
  PVal.sub (.num 100)
    (PVal.div (.num 100)
      (PVal.add (.num 1)
        (PVal.div (rollMeanP 14 (gainAt cl) t) (rollMeanP 14 (lossAt cl) t))))

/-- `ewm(span, adjust=False).mean()` recurrence continued from a previous
value: `e = a*x + (1-a)*e_prev`. -/
def emaFrom (a : ℚ) (e : ℚ) : List ℚ → List ℚ
  | [] => []
  | x :: rest =>
      let e2 := a * x + (1 - a) * e
      e2 :: emaFrom a e2 rest

/-- `ewm(span, adjust=False).mean()` over a list: the first output equals the
first input. -/
def emaList (a : ℚ) : List ℚ → List ℚ
  | [] => []
  | x :: rest => x :: emaFrom a x rest

/-- Feature column `close`. -/
def closeCol (cl : List ℚ) (i : ℕ) : PVal := .num (priceAt cl i)

/-- Feature column `rsi_14`. -/
def rsiCol (cl : List ℚ) (i : ℕ) : PVal := rsiRollAt cl i

/-- Feature column `ema_30` (`span=30`, so `alpha = 2/31`). -/
def emaCol (cl : List ℚ) (i : ℕ) : PVal := .num ((emaList (2 / 31) cl).getD i 0)

/-- Feature column `sma_10`. -/
def sma10Col (cl : List ℚ) (i : ℕ) : PVal := rollMeanP 10 (priceAt cl) i

/-- Feature column `sma_50`. -/
def sma50Col (cl : List ℚ) (i : ℕ) : PVal := rollMeanP 50 (priceAt cl) i

/-- Feature column `bb_upper` (window 20, 2 standard deviations). -/
def bbUpCol (s : ℚ → ℚ) (cl : List ℚ) (i : ℕ) : PVal :=
  PVal.add (rollMeanP 20 (priceAt cl) i) (PVal.mul (rollStdP s 20 (priceAt cl) i) (.num 2))

/-- Feature column `bb_lower`. -/
def bbLowCol (s : ℚ → ℚ) (cl : List ℚ) (i : ℕ) : PVal :=
  PVal.sub (rollMeanP 20 (priceAt cl) i) (PVal.mul (rollStdP s 20 (priceAt cl) i) (.num 2))

/-- Feature column `bb_width = bb_upper - bb_lower`. -/
def bbWidthCol (s : ℚ → ℚ) (cl : List ℚ) (i : ℕ) : PVal :=
  PVal.sub (bbUpCol s cl i) (bbLowCol s cl i)

/-- Feature column `bb_position = (close - bb_lower) / bb_width`, computed
with no guard on `bb_width == 0`. -/
def bbPosCol (s : ℚ → ℚ) (cl : List ℚ) (i : ℕ) : PVal :=
  PVal.div (PVal.sub (closeCol cl i) (bbLowCol s cl i)) (bbWidthCol s cl i)

/-- Feature column `price_sma10_ratio = close / sma_10`. -/
def psr10Col (cl : List ℚ) (i : ℕ) : PVal :=
  PVal.div (closeCol cl i) (sma10Col cl i)

/-- Feature column `price_sma50_ratio = close / sma_50`. -/
def psr50Col (cl : List ℚ) (i : ℕ) : PVal :=
  PVal.div (closeCol cl i) (sma50Col cl i)

/-- One feature row, in the fixed FEATURES order of both LSTM modules. -/
def rowFn (s : ℚ → ℚ) (cl : List ℚ) (i : ℕ) : List PVal :=
  [closeCol cl i, rsiCol cl i, emaCol cl i, sma10Col cl i, sma50Col cl i,
   bbUpCol s cl i, bbLowCol s cl i, bbWidthCol s cl i, bbPosCol s cl i,
   psr10Col cl i, psr50Col cl i]

/-- All feature rows of the raw close series, one per time step, before
`dropna()`. -/
def engineerAll (s : ℚ → ℚ) (cl : List ℚ) : List (List PVal) :=
  (List.range cl.length).map (rowFn s cl)

/-- The rows surviving `dropna()`: those with no NaN entry.  Rows where any
rolling computation lacks full history are NaN there and are dropped, as are
rows made NaN by degenerate arithmetic; nothing is imputed. -/
def featureRows (s : ℚ → ℚ) (cl : List ℚ) : List (List PVal) :=
  (engineerAll s cl).filter (fun r => !(r.any PVal.isNan))

/-- `engineer_features` of `predict_lstm_eth.py`: computes the rows and drops
incomplete ones, with no minimum-row check. -/
def predictEngineer (s : ℚ → ℚ) (cl : List ℚ) : List (List PVal) :=
  featureRows s cl

/-- Failure of `engineer_features` in `lstm_train.py` when fewer than 100
complete rows remain. -/
inductive FeatErr where
  | insufficientFeatureData
deriving DecidableEq

/-- `engineer_features` of `lstm_train.py`: identical computation, but raises
when fewer than 100 complete rows remain after dropping. -/
def trainEngineer (s : ℚ → ℚ) (cl : List ℚ) : Except FeatErr (List (List PVal)) :=
  if (featureRows s cl).length < 100 then .error .insufficientFeatureData
  else .ok (featureRows s cl)

/-- The scaler fitted on feature column `i` by `normalize_features`
(`lstm_train.py`): one independent min-max scaler per column. -/
def scalerFor (data : List (List ℚ)) (i : ℕ) : Scaler :=
  Scaler.fit (data.map (fun r => r.getD i 0))

/-- One row scaled column-by-column with the per-column fitted scalers. -/
def normRow (data : List (List ℚ)) (row : List ℚ) : List ℚ :=
  (List.range row.length).map (fun i => (scalerFor data i).transform (row.getD i 0))

/-- `normalize_features` of `lstm_train.py`: fits one scaler per column over
the full series and transforms every entry with its column's scaler. -/
def normalizeFeatures (data : List (List ℚ)) : List (List ℚ) :=
  data.map (normRow data)

/-- `create_sequences` of `lstm_train.py`: for each `i` in `range(L, n)` the
input is `data[i-L:i]` and the target is `data[i][target_column]`. -/
def createSequences (data : List (List ℚ)) (L tgt : ℕ) :
    List (List (List ℚ)) × List ℚ :=
  ((List.range' L (data.length - L)).map (fun i => (data.drop (i - L)).take L),
   (List.range' L (data.length - L)).map (fun i => (data.getD i []).getD tgt 0))

/-- The loop of `predict_multi_step` (`lstm_train.py`): each step predicts
from the current normalized window, copies the window's last row with its
close entry overwritten by the prediction, and shifts the window forward.
Returns the normalized predictions in order together with the final window. -/
def pmsLoop (m : List (List ℚ) → ℚ) : ℕ → List (List ℚ) → List ℚ × List (List ℚ)
  | 0, seq => ([], seq)
  | n + 1, seq =>
      let p := m seq
      let newRow := (seq.getLastD []).set 0 p
      let r := pmsLoop m n (seq.drop 1 ++ [newRow])
      (p :: r.1, r.2)

/-- `predict_multi_step` of `lstm_train.py`: starts from the last `L` rows of
the normalized data, iterates the loop `numDays` times, and denormalizes all
predictions with the close scaler. -/
def predictMultiStep (m : List (List ℚ) → ℚ) (closeScaler : Scaler)
    (scaled : List (List ℚ)) (numDays L : ℕ) : List ℚ :=
  ((pmsLoop m numDays (lastN L scaled)).1).map closeScaler.inverse

/-- Column-wise scaling of recomputed feature rows with already-fitted
scalers (the per-column transform loop of `predict` in
`predict_lstm_eth.py`); column 0 is the close feature. -/
def scaleRows (scalers : List Scaler) (rows : List (List PVal)) : List (List PVal) :=
  rows.map (fun r =>
    (List.range r.length).map (fun i => (scalers.getD i default).transformP (r.getD i .nan)))

/-- State of the multi-step loop in `predict` (`predict_lstm_eth.py`): the
growing raw close series, the latest normalized prediction, and the
normalized predictions accumulated so far. -/
structure EthState where
  closes : List ℚ
  pred : ℚ
  preds : List ℚ
deriving DecidableEq

/-- One iteration of the loop in `predict`: denormalize the pending
prediction with the close scaler, append it to the raw series, recompute the
entire feature pipeline over the extended series, take the last `L` feature
rows, scale them with the same fitted scalers, and invoke the model. -/
def ethStep (s : ℚ → ℚ) (m : List (List PVal) → ℚ) (scalers : List Scaler)
    (L : ℕ) (st : EthState) : EthState :=
  let predClose := (scalers.getD 0 default).inverse st.pred
  let closes2 := st.closes ++ [predClose]
  let window := scaleRows scalers (lastN L (predictEngineer s closes2))
  let p2 := m window
  ⟨closes2, p2, st.preds ++ [p2]⟩

/-- The multi-step loop of `predict` run for `n` iterations from the original
raw series and the initial prediction (`seq_len = 30` plays the role of `L`
in the source). -/
def ethLoop (s : ℚ → ℚ) (m : List (List PVal) → ℚ) (scalers : List Scaler)
    (L : ℕ) (orig : List ℚ) (p0 : ℚ) : ℕ → EthState
  | 0 => ⟨orig, p0, []⟩
  | n + 1 => ethStep s m scalers L (ethLoop s m scalers L orig p0 n)

/-- `round(x, 4)` on the extended domain: NaN and infinities round to
themselves, as in Python. -/
def PVal.round4p : PVal → PVal
  | .num q => .num (round4 q)
  | x => x

/-- Result dictionary of `TechnicalIndicators.calculate_ema`. -/
inductive EmaRes where
  | err (e : IndErr)
  | ok (currentPrice emaValue : ℚ) (signal : Sig) (emaSlope : PVal) (history : List ℚ)
deriving DecidableEq

/-- `TechnicalIndicators.calculate_ema`: `ewm(span=period).mean()` (adjust
defaults to True), slope `(ema[-1] - ema[-2]) / ema[-2] * 100` computed in
numpy floats (a zero previous EMA yields inf/NaN, not an exception), and the
price-vs-EMA/slope classification.  A zero span is rejected by pandas `ewm`
(ValueError), caught by the wrapper into an error dictionary. -/
def calcEma (prices : List ℚ) (period : ℕ) : EmaRes :=
  if prices.length < period then .err .insufficientData
  else if period = 0 then .err .invalidParam
  else
    let n := prices.length
    let cp := priceAt prices (n - 1)
    let ce := emaSpanAt period (priceAt prices) (n - 1)
    let pe := emaSpanAt period (priceAt prices) (n - 2)
    let slope : PVal :=
      if 2 ≤ n then PVal.mul (PVal.div (.num (ce - pe)) (.num pe)) (.num 100)
      else .num 0
    let sig := if ce < cp then
                 (if PVal.ltb (.num 0) slope then Sig.STRONG_BULLISH else Sig.BULLISH)
               else
                 (if PVal.ltb slope (.num 0) then Sig.STRONG_BEARISH else Sig.BEARISH)
    .ok (round2 cp) (round2 ce) sig slope.round4p
      (lastN 10 ((List.range n).map (fun t => round2 (emaSpanAt period (priceAt prices) t))))

/-- Result dictionary of `TechnicalIndicators.calculate_sma`. -/
inductive SmaRes where
  | err (e : IndErr)
  | ok (currentPrice : ℚ) (smaValue : PVal) (signal : Sig) (smaSlope : PVal)
      (history : List PVal)
deriving DecidableEq

/-- `TechnicalIndicators.calculate_sma`: `rolling(period).mean()`, slope
`(sma[-1] - sma[-2]) / sma[-2] * 100` over the extended domain (the previous
SMA is NaN when `len == period`), and the price-vs-SMA/slope classification.
A zero rolling window is rejected by pandas, caught by the wrapper. -/
def calcSma (prices : List ℚ) (period : ℕ) : SmaRes :=
  if prices.length < period then .err .insufficientData
  else if period = 0 then .err .invalidParam
  else
    let n := prices.length
    let cp := priceAt prices (n - 1)
    let cs := rollMeanP period (priceAt prices) (n - 1)
    let ps := rollMeanP period (priceAt prices) (n - 2)
    let slope : PVal :=
      if 2 ≤ n then PVal.mul (PVal.div (PVal.sub cs ps) ps) (.num 100)
      else .num 0
    let sig := if PVal.ltb cs (.num cp) then
                 (if PVal.ltb (.num 0) slope then Sig.STRONG_BULLISH else Sig.BULLISH)
               else
                 (if PVal.ltb slope (.num 0) then Sig.STRONG_BEARISH else Sig.BEARISH)
    .ok (round2 cp) cs.round2p sig slope.round4p
      (lastN 10 ((((List.range n).map (rollMeanP period (priceAt prices))).filter
        (fun x => !x.isNan)).map PVal.round2p))

/-- Result dictionary of `TechnicalIndicators.calculate_volume`. -/
inductive VolRes where
  | err (e : IndErr)
  | ok (currentVolume : ℚ) (smaVolume volumeRat : PVal) (volumeRoc : ℚ)
      (signal : Sig) (history : List PVal)
deriving DecidableEq

/-- `TechnicalIndicators.calculate_volume`.  Wrapped-exception paths of the
Python body, in source order: constructing the DataFrame from volume and
price lists of different lengths raises ValueError; `rolling(0)` is rejected
by pandas; the volume rate-of-change divides by the plain-Python float
`volumes[-2]` (ZeroDivisionError when zero, unlike the numpy divisions); the
price change likewise divides by the plain `prices[-2]`.  The volume ratio
divides by the numpy rolling mean, so a zero mean silently yields inf/NaN.
Signal thresholds 1.5 and 1.2 against the volume SMA, combined with the
price direction. -/
def calcVolume (prices volumes : List ℚ) (period : ℕ) : VolRes :=
  if volumes.length < period then .err .insufficientData
  else if volumes.length ≠ prices.length then .err .invalidParam
  else if period = 0 then .err .invalidParam
  else if 2 ≤ volumes.length ∧ volumes.getD (volumes.length - 2) 0 = 0 then
    .err .invalidParam
  else if 2 ≤ prices.length ∧ priceAt prices (prices.length - 2) = 0 then
    .err .invalidParam
  else
    let n := volumes.length
    let cv := volumes.getD (n - 1) 0
    let csv := rollMeanP period (fun i => volumes.getD i 0) (n - 1)
    let vroc : ℚ :=
      if 2 ≤ n then (cv - volumes.getD (n - 2) 0) / volumes.getD (n - 2) 0 * 100
      else 0
    let vratio := PVal.div (.num cv) csv
    let pchange : ℚ :=
      if 2 ≤ prices.length then
        (priceAt prices (prices.length - 1) - priceAt prices (prices.length - 2)) /
          priceAt prices (prices.length - 2) * 100
      else 0
    let sig := if PVal.ltb (.num (3 / 2)) vratio then
                 (if 0 < pchange then Sig.STRONG_BULLISH else Sig.STRONG_BEARISH)
               else if PVal.ltb (.num (6 / 5)) vratio then
                 (if 0 < pchange then Sig.BULLISH else Sig.BEARISH)
               else Sig.NEUTRAL
    .ok (round2 cv) csv.round2p vratio.round2p (round2 vroc) sig
      (lastN 10 ((((List.range n).map (rollMeanP period (fun i => volumes.getD i 0))).filter
        (fun x => !x.isNan)).map PVal.round2p))

/-- C6: For every per-feature min-max scaler fitted on a series,
`inverse_transform(transform(x)) = x` exactly for any `x`, as an algebraic
law with no clamping (so also outside the fitted range); and whenever the
fitted range is non-degenerate the transform is `(x - min)/(max - min)`. -/
theorem C6_minmax_roundtrip (data : List ℚ) (x : ℚ) :
    (Scaler.fit data).inverse ((Scaler.fit data).transform x) = x ∧
    ((Scaler.fit data).dataMin < (Scaler.fit data).dataMax →
      (Scaler.fit data).transform x =
        (x - (Scaler.fit data).dataMin) /
          ((Scaler.fit data).dataMax - (Scaler.fit data).dataMin)) := by
  constructor
  · exact Scaler.inverse_transform_eq (Scaler.fit data) x
  · intro h
    have hne : (Scaler.fit data).dataMax - (Scaler.fit data).dataMin ≠ 0 :=
      sub_ne_zero.mpr (ne_of_gt h)
    unfold Scaler.transform Scaler.minAdj Scaler.scaleF
    rw [if_neg hne]
    field_simp
    ring

theorem C6_minmax_roundtrip_witness :
    (Scaler.fit [1, 3]).dataMin < (Scaler.fit [1, 3]).dataMax ∧
    (Scaler.fit [1, 3]).inverse ((Scaler.fit [1, 3]).transform 7) = 7 ∧
    (Scaler.fit [1, 3]).transform 7 =
      (7 - (Scaler.fit [1, 3]).dataMin) /
        ((Scaler.fit [1, 3]).dataMax - (Scaler.fit [1, 3]).dataMin) :=
  ⟨by decide, (C6_minmax_roundtrip [1, 3] 7).1, (C6_minmax_roundtrip [1, 3] 7).2 (by decide)⟩

/-- C4: the aggregator excludes error entries from scoring (they contribute
no score), totals the fixed weight table over the valid signals, averages by
the valid count, classifies the overall signal by the stated thresholds, sets
`confidence = min(100, |avg| * 30)`, returns UNKNOWN with confidence 0 when
no indicator is valid, and on `{BULLISH, BEARISH}` yields average 0, overall
NEUTRAL, confidence 0. -/
theorem C4_aggregator_scoring (entries : List Entry) :
    (aggregate entries).totalScore = (validScores entries).sum ∧
    (aggregate entries).validIndicators = (validScores entries).length ∧
    (∀ avg : ℚ,
      avg = ((validScores entries).sum : ℚ) / (validScores entries).length →
      0 < (validScores entries).length →
      (aggregate entries).averageScore = round2 avg ∧
      (aggregate entries).confidence = min 100 (|avg| * 30) ∧
      (3 / 2 ≤ avg → (aggregate entries).overallSignal = .STRONG_BULLISH) ∧
      (1 / 2 ≤ avg → avg < 3 / 2 → (aggregate entries).overallSignal = .BULLISH) ∧
      (avg ≤ -(3 / 2) → (aggregate entries).overallSignal = .STRONG_BEARISH) ∧
      (-(3 / 2) < avg → avg ≤ -(1 / 2) → (aggregate entries).overallSignal = .BEARISH) ∧
      (-(1 / 2) < avg → avg < 1 / 2 → (aggregate entries).overallSignal = .NEUTRAL)) ∧
    ((validScores entries).length = 0 →
      (aggregate entries).overallSignal = .UNKNOWN ∧ (aggregate entries).confidence = 0) ∧
    (weightOf .STRONG_BULLISH = some 3 ∧ weightOf .BULLISH = some 2 ∧
      weightOf .BUY = some 2 ∧ weightOf .OVERSOLD = some 1 ∧
      weightOf .NEUTRAL = some 0 ∧ weightOf .OVERBOUGHT = some (-1) ∧
      weightOf .BEARISH = some (-2) ∧ weightOf .SELL = some (-2) ∧
      weightOf .STRONG_BEARISH = some (-3)) ∧
    aggregate [Entry.okE (some .BULLISH), Entry.okE (some .BEARISH)] =
      ⟨.NEUTRAL, 0, 0, 2, 0⟩ := by
  refine ⟨?_, ?_, ?_, ?_, by decide, ?_⟩
  · simp only [aggregate]
    split <;> rfl
  · simp only [aggregate]
    split <;> rfl
  · intro avg havg hpos
    have hagg : aggregate entries =
        ⟨classify (((validScores entries).sum : ℚ) / (validScores entries).length),
         round2 (((validScores entries).sum : ℚ) / (validScores entries).length),
         (validScores entries).sum, (validScores entries).length,
         min 100 (|((validScores entries).sum : ℚ) / (validScores entries).length| * 30)⟩ := by
      simp only [aggregate]
      rw [if_pos hpos]
    subst havg
    rw [hagg]
    refine ⟨rfl, rfl, ?_, ?_, ?_, ?_, ?_⟩ <;>
      · intros
        simp only [classify]
        split_ifs <;> first | rfl | linarith
  · intro hz
    simp only [aggregate]
    rw [if_neg (by omega)]
    exact ⟨rfl, by norm_num⟩
  · have h1 : validScores [Entry.okE (some .BULLISH), Entry.okE (some .BEARISH)] =
        [2, -2] := rfl
    simp only [aggregate, h1]
    norm_num [classify, round2, roundHalfEven]

theorem C4_aggregator_scoring_witness :
    ((validScores [Entry.okE (some .BULLISH), Entry.okE (some .BEARISH)]).sum : ℚ) /
        (validScores [Entry.okE (some .BULLISH), Entry.okE (some .BEARISH)]).length = 0 ∧
    0 < (validScores [Entry.okE (some .BULLISH), Entry.okE (some .BEARISH)]).length ∧
    (aggregate [Entry.okE (some .BULLISH), Entry.okE (some .BEARISH)]).averageScore =
      round2 0 ∧
    (aggregate [Entry.okE (some .BULLISH), Entry.okE (some .BEARISH)]).overallSignal =
      .NEUTRAL := by
  have hv : validScores [Entry.okE (some .BULLISH), Entry.okE (some .BEARISH)] =
      [2, -2] := rfl
  have h0 : ((validScores [Entry.okE (some .BULLISH), Entry.okE (some .BEARISH)]).sum : ℚ) /
      (validScores [Entry.okE (some .BULLISH), Entry.okE (some .BEARISH)]).length = 0 := by
    rw [hv]
    norm_num
  have h := (C4_aggregator_scoring
    [Entry.okE (some .BULLISH), Entry.okE (some .BEARISH)]).2.2.1 0 h0.symm
    (by rw [hv]; norm_num)
  exact ⟨h0, by rw [hv]; norm_num, h.1, h.2.2.2.2.2.2 (by norm_num) (by norm_num)⟩

/-- C8: each indicator fails with the insufficient-data error exactly when
the input length is below its indicator-specific minimum (RSI: `period + 1`,
MACD: `slow + signal`, Stochastic: `k + d`) and succeeds otherwise (for
positive window parameters, which pandas requires); in particular RSI with
period 3 succeeds on the 10-point example list while period 14 fails. -/
theorem C8_insufficient_data_thresholds :
    (∀ (prices : List ℚ) (period : ℕ),
      calcRsi prices period = .err .insufficientData ↔ prices.length < period + 1) ∧
    (∀ (prices : List ℚ) (fast slow sigp : ℕ),
      calcMacd prices fast slow sigp = .err .insufficientData ↔
        prices.length < slow + sigp) ∧
    (∀ (prices : List ℚ) (k d : ℕ),
      calcStochastic prices none none k d = .err .insufficientData ↔
        prices.length < k + d) ∧
    (∀ (prices : List ℚ) (period : ℕ), 1 ≤ period → period + 1 ≤ prices.length →
      ∃ v sg hist, calcRsi prices period = .ok v sg period hist) ∧
    (∀ (prices : List ℚ) (fast slow sigp : ℕ), 1 ≤ fast → 1 ≤ slow → 1 ≤ sigp →
      slow + sigp ≤ prices.length →
      ∃ a b c t h1 h2 h3, calcMacd prices fast slow sigp = .ok a b c t h1 h2 h3) ∧
    (∀ (prices : List ℚ) (k d : ℕ), 1 ≤ k → 1 ≤ d → k + d ≤ prices.length →
      ∃ a b sg hk hd, calcStochastic prices none none k d = .ok a b sg k d hk hd) ∧
    (∃ v sg hist, calcRsi [10, 12, 11, 13, 12, 14, 13, 15, 14, 16] 3 = .ok v sg 3 hist) ∧
    calcRsi [10, 12, 11, 13, 12, 14, 13, 15, 14, 16] 14 = .err .insufficientData := by
  refine ⟨?_, ?_, ?_, ?_, ?_, ?_, ?_, by decide⟩
  · intro prices period
    unfold calcRsi
    split_ifs with h1 h2 <;> simp_all
  · intro prices fast slow sigp
    unfold calcMacd
    split_ifs with h1 h2 <;> simp_all
  · intro prices k d
    unfold calcStochastic
    split_ifs with h1 h2 <;> simp_all
  · intro prices period hp hl
    unfold calcRsi
    rw [if_neg (by omega), if_neg (by omega)]
    exact ⟨_, _, _, rfl⟩
  · intro prices fast slow sigp hf hs hg hl
    unfold calcMacd
    rw [if_neg (by omega), if_neg (by push_neg; omega)]
    exact ⟨_, _, _, _, _, _, _, rfl⟩
  · intro prices k d hk hd hl
    unfold calcStochastic
    rw [if_neg (by omega), if_neg (by push_neg; omega)]
    exact ⟨_, _, _, _, _, rfl⟩
  · exact (by
      unfold calcRsi
      rw [if_neg (by norm_num), if_neg (by norm_num)]
      exact ⟨_, _, _, rfl⟩)

theorem C8_insufficient_data_thresholds_witness :
    (1 ≤ 3 ∧ 3 + 1 ≤ ([10, 12, 11, 13] : List ℚ).length) ∧
    (∃ v sg hist, calcRsi [10, 12, 11, 13] 3 = .ok v sg 3 hist) := by
  refine ⟨⟨by norm_num, by norm_num⟩, ?_⟩
  exact C8_insufficient_data_thresholds.2.2.2.1 [10, 12, 11, 13] 3 (by norm_num) (by norm_num)

/-- Helper: the scores accumulated by the aggregation loop are unchanged by
first removing the error entries, since error entries contribute none. -/
theorem validScores_filter_ne_err (entries : List Entry) :
    validScores (entries.filter (fun e => e != Entry.errE)) = validScores entries := by
  induction entries with
  | nil => rfl
  | cons a t ih =>
    cases a with
    | errE => simpa [validScores, List.filter_cons, List.filterMap_cons, Entry.score] using ih
    | okE s =>
      have hne : (Entry.okE s != Entry.errE) = true := by simp [bne]
      simp only [validScores, List.filter_cons, hne, if_true, List.filterMap_cons] at *
      cases h : Entry.score (Entry.okE s) <;> simp [h, ih]

set_option maxHeartbeats 1600000 in
/-- C10: every public indicator computation of the library — RSI, MACD,
Bollinger Bands, EMA, SMA, Stochastic, Volume — is total at its boundary:
for any input it returns either an error dictionary or a normal result
dictionary (internal failures are caught by the wrapper and returned as
error entries, as C1 shows concretely for degenerate arithmetic); and the
aggregation summary is unchanged when the error entries are removed, i.e.
downstream aggregation excludes them from scoring. -/
theorem C10_indicator_totality_and_error_exclusion :
    (∀ (prices : List ℚ) (period : ℕ),
      (∃ e, calcRsi prices period = .err e) ∨
      (∃ v sg hist, calcRsi prices period = .ok v sg period hist)) ∧
    (∀ (prices : List ℚ) (fast slow sigp : ℕ),
      (∃ e, calcMacd prices fast slow sigp = .err e) ∨
      (∃ a b c t h1 h2 h3, calcMacd prices fast slow sigp = .ok a b c t h1 h2 h3)) ∧
    (∀ (s : ℚ → ℚ) (prices : List ℚ) (period : ℕ) (sd : ℚ),
      (∃ e, calcBollinger s prices period sd = .err e) ∨
      (∃ cp u mid low sg bw bp,
        calcBollinger s prices period sd = .ok cp u mid low sg bw bp)) ∧
    (∀ (prices : List ℚ) (period : ℕ),
      (∃ e, calcEma prices period = .err e) ∨
      (∃ cp ev sg sl hist, calcEma prices period = .ok cp ev sg sl hist)) ∧
    (∀ (prices : List ℚ) (period : ℕ),
      (∃ e, calcSma prices period = .err e) ∨
      (∃ cp sv sg sl hist, calcSma prices period = .ok cp sv sg sl hist)) ∧
    (∀ (prices : List ℚ) (highs lows : Option (List ℚ)) (k d : ℕ),
      (∃ e, calcStochastic prices highs lows k d = .err e) ∨
      (∃ a b sg hk hd, calcStochastic prices highs lows k d = .ok a b sg k d hk hd)) ∧
    (∀ (prices volumes : List ℚ) (period : ℕ),
      (∃ e, calcVolume prices volumes period = .err e) ∨
      (∃ cv sv vr roc sg hist, calcVolume prices volumes period = .ok cv sv vr roc sg hist)) ∧
    (∀ entries : List Entry,
      aggregate (entries.filter (fun e => e != Entry.errE)) = aggregate entries) := by
  refine ⟨?_, ?_, ?_, ?_, ?_, ?_, ?_, ?_⟩
  · intro prices period
    unfold calcRsi
    split_ifs
    · exact Or.inl ⟨_, rfl⟩
    · exact Or.inl ⟨_, rfl⟩
    · exact Or.inr ⟨_, _, _, rfl⟩
  · intro prices fast slow sigp
    unfold calcMacd
    split_ifs
    · exact Or.inl ⟨_, rfl⟩
    · exact Or.inl ⟨_, rfl⟩
    · exact Or.inr ⟨_, _, _, _, _, _, _, rfl⟩
  · intro s prices period sd
    unfold calcBollinger
    split_ifs
    · exact Or.inl ⟨_, rfl⟩
    · exact Or.inl ⟨_, rfl⟩
    · exact Or.inr ⟨_, _, _, _, _, _, _, rfl⟩
  · intro prices period
    unfold calcEma
    split_ifs <;>
      first
        | exact Or.inl ⟨_, rfl⟩
        | exact Or.inr ⟨_, _, _, _, _, rfl⟩
  · intro prices period
    unfold calcSma
    split_ifs <;>
      first
        | exact Or.inl ⟨_, rfl⟩
        | exact Or.inr ⟨_, _, _, _, _, rfl⟩
  · intro prices highs lows k d
    unfold calcStochastic
    split_ifs <;>
      first
        | exact Or.inl ⟨_, rfl⟩
        | exact Or.inr ⟨_, _, _, _, _, rfl⟩
  · intro prices volumes period
    unfold calcVolume
    split_ifs <;>
      first
        | exact Or.inl ⟨_, rfl⟩
        | exact Or.inr ⟨_, _, _, _, _, _, rfl⟩
  · intro entries
    simp only [aggregate, validScores_filter_ne_err]

theorem round2_one : round2 1 = 1 := by
  unfold round2 roundHalfEven
  norm_num

theorem round2_zero : round2 0 = 0 := by
  unfold round2 roundHalfEven
  norm_num

/-- C1 (code bug): on the spec's own example — constant prices `[1,1,1,1]`,
window 3, 2 standard deviations — the Bollinger computation produces a
zero-width band (`upper = lower`) and returns `band_position = NaN` inside a
normal result dictionary; no `DegenerateBandError` exists anywhere in the
source, so the division by the zero band width is silent. -/
theorem C1_zero_width_band_returns_nan (s : ℚ → ℚ) (hs : s 0 = 0) :
    calcBollinger s [1, 1, 1, 1] 3 2 =
      .ok 1 (.num 1) (.num 1) (.num 1) .OVERBOUGHT (.num 0) .nan := by
  have hvar : sampleVarAt 3 (priceAt [1, 1, 1, 1]) 3 = 0 := by
    unfold sampleVarAt
    norm_num [Finset.sum_range_succ, priceAt]
  have hstd : rollStdP s 3 (priceAt [1, 1, 1, 1]) 3 = .num 0 := by
    unfold rollStdP
    rw [if_neg (by norm_num), if_neg (by norm_num), hvar, hs]
  have hmean : rollMeanP 3 (priceAt [1, 1, 1, 1]) 3 = .num 1 := by
    unfold rollMeanP
    rw [if_neg (by norm_num)]
    norm_num [Finset.sum_range_succ, priceAt]
  unfold calcBollinger
  rw [if_neg (by norm_num), if_neg (by norm_num)]
  simp only [List.length_cons, List.length_nil, Nat.reduceAdd, Nat.reduceSub]
  simp only [hmean, hstd]
  norm_num [PVal.add, PVal.mul, PVal.sub, PVal.neg, PVal.div, PVal.leb, PVal.ltb,
    PVal.round2p, priceAt, round2_one, round2_zero]

theorem C1_zero_width_band_returns_nan_witness :
    (fun _ : ℚ => (0 : ℚ)) 0 = 0 ∧
    calcBollinger (fun _ => 0) [1, 1, 1, 1] 3 2 =
      .ok 1 (.num 1) (.num 1) (.num 1) .OVERBOUGHT (.num 0) .nan :=
  ⟨rfl, C1_zero_width_band_returns_nan (fun _ => 0) rfl⟩

/-- Gains of a constant series vanish at in-range indices. -/
theorem gainAt_replicate_eq_zero (n : ℕ) (j : ℕ) (hj : j < n) :
    gainAt (List.replicate n (1 : ℚ)) j = 0 := by
  unfold gainAt
  split
  · rfl
  · rename_i hj0
    have h1 : priceAt (List.replicate n (1 : ℚ)) j = 1 := by
      unfold priceAt
      rw [List.getD_eq_getElem?_getD, List.getElem?_replicate, if_pos hj]
      rfl
    have h2 : priceAt (List.replicate n (1 : ℚ)) (j - 1) = 1 := by
      unfold priceAt
      rw [List.getD_eq_getElem?_getD, List.getElem?_replicate, if_pos (by omega)]
      rfl
    rw [h1, h2]
    norm_num

/-- Losses of a constant series vanish at in-range indices. -/
theorem lossAt_replicate_eq_zero (n : ℕ) (j : ℕ) (hj : j < n) :
    lossAt (List.replicate n (1 : ℚ)) j = 0 := by
  unfold lossAt
  split
  · rfl
  · rename_i hj0
    have h1 : priceAt (List.replicate n (1 : ℚ)) j = 1 := by
      unfold priceAt
      rw [List.getD_eq_getElem?_getD, List.getElem?_replicate, if_pos hj]
      rfl
    have h2 : priceAt (List.replicate n (1 : ℚ)) (j - 1) = 1 := by
      unfold priceAt
      rw [List.getD_eq_getElem?_getD, List.getElem?_replicate, if_pos (by omega)]
      rfl
    rw [h1, h2]
    norm_num

/-- On a constant price series both smoothed averages are zero past warm-up,
so `RS = 0/0` and the whole RSI series is NaN. -/
theorem rsiEwmAt_replicate_nan (t : ℕ) (ht : t < 15) :
    rsiEwmAt (List.replicate 15 (1 : ℚ)) 14 t = PVal.nan := by
  unfold rsiEwmAt
  split
  · rfl
  · have hg : ∀ a : ℚ, ewmAdjAt a (gainAt (List.replicate 15 (1 : ℚ))) t = 0 := by
      intro a
      unfold ewmAdjAt
      rw [Finset.sum_eq_zero, zero_div]
      intro j hj
      rw [gainAt_replicate_eq_zero 15 j (by simp at hj; omega), mul_zero]
    have hl : ∀ a : ℚ, ewmAdjAt a (lossAt (List.replicate 15 (1 : ℚ))) t = 0 := by
      intro a
      unfold ewmAdjAt
      rw [Finset.sum_eq_zero, zero_div]
      intro j hj
      rw [lossAt_replicate_eq_zero 15 j (by simp at hj; omega), mul_zero]
    rw [hg, hl]
    decide

/-- C5 counterexample: a constant price series of length `period + 1 = 15`
passes the length guard, yet the RSI value produced is NaN (from the `0/0`
average-gain/average-loss ratio), so it does not lie in `[0, 100]`. -/
theorem C5_rsi_nan_on_constant_prices :
    calcRsi (List.replicate 15 (1 : ℚ)) 14 = .ok .nan .NEUTRAL 14 [] ∧
    (¬ ∃ q : ℚ, (PVal.nan : PVal) = .num q ∧ 0 ≤ q ∧ q ≤ 100) := by
  constructor
  · unfold calcRsi
    rw [if_neg (by simp), if_neg (by norm_num)]
    have hlen : (List.replicate 15 (1 : ℚ)).length = 15 := by simp
    have hmap : (List.range (List.replicate 15 (1 : ℚ)).length).map
        (rsiEwmAt (List.replicate 15 (1 : ℚ)) 14) = List.replicate 15 PVal.nan := by
      rw [hlen]
      rw [List.map_congr_left (fun x hx => rsiEwmAt_replicate_nan x (List.mem_range.mp hx))]
      simp [List.map_const]
    have hv : rsiEwmAt (List.replicate 15 (1 : ℚ)) 14
        ((List.replicate 15 (1 : ℚ)).length - 1) = PVal.nan := by
      rw [hlen]
      exact rsiEwmAt_replicate_nan 14 (by norm_num)
    simp only [hv, hmap]
    decide
  · rintro ⟨q, hq, _⟩
    cases hq

theorem gainAt_nonneg (prices : List ℚ) (i : ℕ) : 0 ≤ gainAt prices i := by
  unfold gainAt
  split
  · exact le_refl 0
  · exact le_max_left 0 _

theorem lossAt_nonneg (prices : List ℚ) (i : ℕ) : 0 ≤ lossAt prices i := by
  unfold lossAt
  split
  · exact le_refl 0
  · exact le_max_left 0 _

/-- A pandas adjusted exponentially-weighted mean of a nonnegative series is
nonnegative (weights `(1-a)^k` are nonnegative for `a ≤ 1`). -/
theorem ewmAdjAt_nonneg (a : ℚ) (f : ℕ → ℚ) (t : ℕ) (ha : a ≤ 1)
    (hf : ∀ j, 0 ≤ f j) : 0 ≤ ewmAdjAt a f t := by
  unfold ewmAdjAt
  apply div_nonneg
  · exact Finset.sum_nonneg fun j _ =>
      mul_nonneg (pow_nonneg (by linarith) _) (hf j)
  · exact Finset.sum_nonneg fun j _ => pow_nonneg (by linarith) _

theorem PVal.div_num_num (a b : ℚ) : PVal.div (.num a) (.num b) =
    if b = 0 then (if a = 0 then .nan else .inf (decide (0 < a))) else .num (a / b) := rfl

theorem PVal.sub_num_num (a b : ℚ) : PVal.sub (.num a) (.num b) = .num (a - b) := by
  show PVal.num (a + -b) = PVal.num (a - b)
  rw [← sub_eq_add_neg]

/-- `100 - 100/(1 + g/l)` over the IEEE domain with nonnegative gain and loss
averages: NaN when both vanish, otherwise a value in `[0, 100]`. -/
theorem rsiPointQ_cases (g l : ℚ) (hg : 0 ≤ g) (hl : 0 ≤ l) :
    rsiPointQ g l = .nan ∨ ∃ q : ℚ, rsiPointQ g l = .num q ∧ 0 ≤ q ∧ q ≤ 100 := by
  rcases eq_or_lt_of_le hl with hl0 | hl0
  · rcases eq_or_lt_of_le hg with hg0 | hg0
    · left
      rw [← hl0, ← hg0]
      decide
    · right
      refine ⟨100, ?_, by norm_num, by norm_num⟩
      rw [← hl0]
      unfold rsiPointQ
      have h1 : PVal.div (.num g) (.num 0) = .inf true := by
        rw [PVal.div_num_num, if_pos rfl, if_neg (by linarith), decide_eq_true hg0]
      rw [h1]
      show PVal.sub (.num 100) (.num 0) = .num 100
      rw [PVal.sub_num_num]
      norm_num
  · right
    have hne : l ≠ 0 := ne_of_gt hl0
    have hr : 0 ≤ g / l := div_nonneg hg hl0.le
    have hdpos : 0 < 1 + g / l := by linarith
    have hd : (1 : ℚ) + g / l ≠ 0 := ne_of_gt hdpos
    refine ⟨100 - 100 / (1 + g / l), ?_, ?_, ?_⟩
    · unfold rsiPointQ
      have h1 : PVal.div (.num g) (.num l) = .num (g / l) := by
        rw [PVal.div_num_num, if_neg hne]
      rw [h1]
      have h2 : PVal.add (.num 1) (.num (g / l)) = .num (1 + g / l) := rfl
      rw [h2]
      have h3 : PVal.div (.num 100) (.num (1 + g / l)) = .num (100 / (1 + g / l)) := by
        rw [PVal.div_num_num, if_neg hd]
      rw [h3, PVal.sub_num_num]
    · have hle : 100 / (1 + g / l) ≤ 100 := by
        rw [div_le_iff₀ hdpos]
        nlinarith
      linarith
    · have hge : 0 < 100 / (1 + g / l) := by positivity
      linarith

/-- C5 (amended): for every price sequence of length at least `period + 1`
(positive period), the RSI computation succeeds and its reported value is
either NaN — the degenerate case where average gain and average loss are both
zero, e.g. constant prices — or a value in `[0, 100]`. -/
theorem C5_rsi_bounded_or_nan (prices : List ℚ) (period : ℕ)
    (h1 : 1 ≤ period) (h2 : period + 1 ≤ prices.length) :
    ∃ v sg hist, calcRsi prices period = .ok v sg period hist ∧
      (v = .nan ∨ ∃ q : ℚ, v = .num q ∧ 0 ≤ q ∧ q ≤ 100) := by
  unfold calcRsi
  rw [if_neg (by omega), if_neg (by omega)]
  refine ⟨_, _, _, rfl, ?_⟩
  unfold rsiEwmAt
  rw [if_neg (by omega)]
  have hap : (0 : ℚ) < (period : ℚ) := by
    have h : (1 : ℚ) ≤ (period : ℚ) := by exact_mod_cast h1
    linarith
  have ha : (1 : ℚ) / (period : ℚ) ≤ 1 := by
    rw [div_le_one hap]
    exact_mod_cast h1
  have hg := ewmAdjAt_nonneg (1 / (period : ℚ)) (gainAt prices) (prices.length - 1) ha
    (gainAt_nonneg prices)
  have hl := ewmAdjAt_nonneg (1 / (period : ℚ)) (lossAt prices) (prices.length - 1) ha
    (lossAt_nonneg prices)
  rcases rsiPointQ_cases _ _ hg hl with h | ⟨q, hq, hq0, hq100⟩
  · left
    rw [h]
    rfl
  · right
    rw [hq]
    refine ⟨round2 q, rfl, ?_, ?_⟩
    · exact (round2_bounds q 0 100 hq0 hq100 ⟨0, by norm_num⟩ ⟨10000, by norm_num⟩).1
    · exact (round2_bounds q 0 100 hq0 hq100 ⟨0, by norm_num⟩ ⟨10000, by norm_num⟩).2

theorem C5_rsi_bounded_or_nan_witness :
    (1 ≤ 3 ∧ 3 + 1 ≤ ([10, 12, 11, 13] : List ℚ).length) ∧
    (∃ v sg hist, calcRsi [10, 12, 11, 13] 3 = .ok v sg 3 hist ∧
      (v = .nan ∨ ∃ q : ℚ, v = .num q ∧ 0 ≤ q ∧ q ≤ 100)) :=
  ⟨⟨by norm_num, by simp⟩,
    C5_rsi_bounded_or_nan [10, 12, 11, 13] 3 (by norm_num) (by simp)⟩

/-- C3 counterexample: the prediction-module pipeline
(`engineer_features` of `predict_lstm_eth.py`) run on a short constant series
leaves zero complete rows — fewer than 100 — and returns normally instead of
failing with an insufficient-feature-data error. -/
theorem C3_predict_pipeline_no_minimum_failure :
    predictEngineer (fun _ => 0) (List.replicate 13 1) = [] ∧
    (predictEngineer (fun _ => 0) (List.replicate 13 1)).length < 100 := by
  have h : predictEngineer (fun _ => 0) (List.replicate 13 1) = [] := by decide
  exact ⟨h, by rw [h]; norm_num⟩

/-- C3 (amended): the feature pipeline keeps only rows with every feature
defined (no imputation); every row whose index is below the 50-window SMA
warm-up — in particular any row where some rolling computation lacks full
history — is incomplete and hence dropped; and the training-module pipeline
(`lstm_train.py`) fails with the insufficient-feature-data error exactly when
fewer than 100 complete rows remain, while the prediction-module pipeline
performs no such check. -/
theorem C3_feature_pipeline_drop_and_minimum (s : ℚ → ℚ) (cl : List ℚ) :
    (∀ r ∈ featureRows s cl, r.any PVal.isNan = false) ∧
    (∀ i, i < 49 → (rowFn s cl i).any PVal.isNan = true) ∧
    (trainEngineer s cl = .error .insufficientFeatureData ↔
      (featureRows s cl).length < 100) ∧
    (100 ≤ (featureRows s cl).length → trainEngineer s cl = .ok (featureRows s cl)) := by
  refine ⟨?_, ?_, ?_, ?_⟩
  · intro r hr
    have h := (List.mem_filter.mp hr).2
    simpa using h
  · intro i hi
    have h50 : sma50Col cl i = .nan := by
      unfold sma50Col rollMeanP
      rw [if_pos (by omega)]
    simp [rowFn, h50, PVal.isNan]
  · unfold trainEngineer
    split
    · rename_i h
      simp [h]
    · rename_i h
      simp [h]
  · intro h
    unfold trainEngineer
    rw [if_neg (by omega)]

theorem C3_feature_pipeline_drop_and_minimum_witness :
    ((0 : ℕ) < 49) ∧
    (rowFn (fun _ => (0 : ℚ)) [1] 0).any PVal.isNan = true :=
  ⟨by norm_num, (C3_feature_pipeline_drop_and_minimum (fun _ => 0) [1]).2.1 0 (by norm_num)⟩

/-- C9: the Sequencer yields exactly `n_rows - L` samples (zero, without
error, when `n_rows = L`); sample `j` has input = rows `[j, j+L)` over all
features and target = the close entry (column 0) of row `j + L`. -/
theorem C9_sequencer_samples (data : List (List ℚ)) (L : ℕ) :
    ((createSequences data L 0).1.length = data.length - L) ∧
    ((createSequences data L 0).2.length = data.length - L) ∧
    (data.length = L → createSequences data L 0 = ([], [])) ∧
    (∀ j, j < data.length - L →
      ((createSequences data L 0).1.getD j [] = (data.drop j).take L ∧
       (∀ k, k < L →
         ((createSequences data L 0).1.getD j []).getD k [] = data.getD (j + k) []) ∧
       (createSequences data L 0).2.getD j 0 = (data.getD (j + L) []).getD 0 0)) := by
  refine ⟨by simp [createSequences], by simp [createSequences], ?_, ?_⟩
  · intro h
    simp [createSequences, h]
  · intro j hj
    have hr : (List.range' L (data.length - L))[j]? = some (L + j) := by
      rw [List.getElem?_range' L 1 hj]
      norm_num
    have hX : (createSequences data L 0).1.getD j [] = (data.drop j).take L := by
      unfold createSequences
      rw [List.getD_eq_getElem?_getD, List.getElem?_map, hr]
      simp
    refine ⟨hX, ?_, ?_⟩
    · intro k hk
      rw [hX]
      rw [List.getD_eq_getElem?_getD, List.getD_eq_getElem?_getD]
      rw [List.getElem?_take_of_lt hk, List.getElem?_drop]
    · unfold createSequences
      rw [List.getD_eq_getElem?_getD, List.getElem?_map, hr]
      simp [Nat.add_comm]

theorem C9_sequencer_samples_witness :
    (0 < ([[1], [2], [3]] : List (List ℚ)).length - 1) ∧
    ((createSequences [[1], [2], [3]] 1 0).1.getD 0 [] =
      (([[1], [2], [3]] : List (List ℚ)).drop 0).take 1) :=
  ⟨by simp, ((C9_sequencer_samples [[1], [2], [3]] 1).2.2.2 0 (by simp)).1⟩

/-- Overwriting the head of a nonempty list with its own head is the
identity (the step of `predict_multi_step` under the identity predictor). -/
theorem set_head_self (l : List ℚ) (h : l ≠ []) : l.set 0 (l.getD 0 0) = l := by
  cases l with
  | nil => exact absurd rfl h
  | cons a t => rfl

/-- Dropping a strict prefix does not change the last element. -/
theorem getLastD_drop (l : List α) (k : ℕ) (hk : k < l.length) (d : α) :
    (l.drop k).getLastD d = l.getLastD d := by
  have hne : l.drop k ≠ [] := by
    rw [ne_eq, List.drop_eq_nil_iff]
    omega
  conv_rhs => rw [← List.take_append_drop k l]
  rw [List.getLastD_eq_getLast?, List.getLastD_eq_getLast?,
    List.getLast?_append_of_ne_nil _ hne]

/-- The last element of a mapped nonempty list. -/
theorem getLastD_map_ne_nil (f : List ℚ → List ℚ) (l : List (List ℚ)) (h : l ≠ []) :
    (l.map f).getLastD [] = f (l.getLastD []) := by
  rw [List.getLastD_eq_getLast?, List.getLastD_eq_getLast?, List.getLast?_map]
  cases hx : l.getLast? with
  | none => exact absurd (List.getLast?_eq_none_iff.mp hx) h
  | some x => rfl

/-- The deterministic predictor of the flat-forecast property: it returns the
current window's last normalized close unchanged. -/
def lastCloseModel (w : List (List ℚ)) : ℚ := (w.getLastD []).getD 0 0

/-- Under the identity predictor the `predict_multi_step` loop reproduces the
window's last row verbatim each step, so every normalized prediction equals
the initial last normalized close. -/
theorem pmsLoop_lastClose (n : ℕ) : ∀ (seq : List (List ℚ)) (r : List ℚ),
    r ≠ [] → seq.getLastD [] = r →
    (pmsLoop lastCloseModel n seq).1 = List.replicate n (r.getD 0 0) := by
  induction n with
  | zero => intros; rfl
  | succ k ih =>
    intro seq r hr hlast
    have hp : lastCloseModel seq = r.getD 0 0 := by
      unfold lastCloseModel
      rw [hlast]
    have hnew : (seq.getLastD []).set 0 (lastCloseModel seq) = r := by
      rw [hlast, hp]
      exact set_head_self r hr
    simp only [pmsLoop, hnew]
    rw [ih (seq.drop 1 ++ [r]) r hr (List.getLastD_concat _ _ _), hp]
    rfl

/-- C7: a `predict_multi_step` run of `numDays` steps with the deterministic
predictor that returns the current window's last normalized close unchanged
produces a flat forecast: every denormalized prediction equals the close
entry (column 0) of the last feature row — the last known close of the
series the features were engineered from — because the feedback loop
reinserts the unchanged row and the close scaler's inverse transform undoes
its transform exactly. -/
theorem C7_flat_forecast (featureData : List (List ℚ)) (L numDays : ℕ)
    (hL : 1 ≤ L) (hne : featureData ≠ []) (hrow : featureData.getLastD [] ≠ []) :
    predictMultiStep lastCloseModel (scalerFor featureData 0)
        (normalizeFeatures featureData) numDays L =
      List.replicate numDays ((featureData.getLastD []).getD 0 0) := by
  have hscaledne : normalizeFeatures featureData ≠ [] := by
    unfold normalizeFeatures
    simpa using hne
  have hlastmap : (normalizeFeatures featureData).getLastD [] =
      normRow featureData (featureData.getLastD []) :=
    getLastD_map_ne_nil _ _ hne
  have hrowlen : 0 < (featureData.getLastD []).length := List.length_pos.mpr hrow
  have hlastrow_ne : normRow featureData (featureData.getLastD []) ≠ [] := by
    unfold normRow
    simp only [ne_eq, List.map_eq_nil_iff, List.range_eq_nil]
    omega
  have hwlast : (lastN L (normalizeFeatures featureData)).getLastD [] =
      normRow featureData (featureData.getLastD []) := by
    unfold lastN
    rw [getLastD_drop _ _ (by
      have h := List.length_pos.mpr hscaledne
      omega) _, hlastmap]
  have hval : (normRow featureData (featureData.getLastD [])).getD 0 0 =
      (scalerFor featureData 0).transform ((featureData.getLastD []).getD 0 0) := by
    unfold normRow
    rw [List.getD_eq_getElem?_getD, List.getElem?_map,
      List.getElem?_range (by simpa using hrowlen)]
    rfl
  unfold predictMultiStep
  rw [pmsLoop_lastClose numDays _ _ hlastrow_ne hwlast, List.map_replicate]
  rw [hval, Scaler.inverse_transform_eq]

theorem C7_flat_forecast_witness :
    (1 ≤ 1 ∧ ([[2], [4]] : List (List ℚ)) ≠ [] ∧
      ([[2], [4]] : List (List ℚ)).getLastD [] ≠ []) ∧
    predictMultiStep lastCloseModel (scalerFor [[2], [4]] 0)
        (normalizeFeatures [[2], [4]]) 2 1 =
      List.replicate 2 ((([[2], [4]] : List (List ℚ)).getLastD []).getD 0 0) :=
  ⟨⟨le_refl 1, by simp, by simp⟩,
    C7_flat_forecast [[2], [4]] 1 2 (le_refl 1) (by simp) (by simp)⟩

/-- Taking one more element appends the element at the cut point. -/
theorem take_succ_getD (l : List α) (n : ℕ) (h : n < l.length) (d : α) :
    l.take (n + 1) = l.take n ++ [l.getD n d] := by
  rw [List.take_succ]
  congr 1
  rw [List.getElem?_eq_getElem h]
  rw [List.getD_eq_getElem?_getD, List.getElem?_eq_getElem h]
  rfl

/-- `getD` at the length of the left part of a concatenation. -/
theorem getD_concat_length (l : List α) (a d : α) : (l ++ [a]).getD l.length d = a := by
  rw [List.getD_eq_getElem?_getD, List.getElem?_concat_length]
  rfl

/-- `getD` inside the left part of an append. -/
theorem getD_append_left_of_lt (l l2 : List α) (n : ℕ) (h : n < l.length) (d : α) :
    (l ++ l2).getD n d = l.getD n d := by
  rw [List.getD_eq_getElem?_getD, List.getD_eq_getElem?_getD, List.getElem?_append_left h]

/-- C2: closed-form characterization of the multi-step loop of `predict`
(`predict_lstm_eth.py`).  After `n` steps the raw series equals the original
series extended with the denormalized versions of the pending predictions in
order; and each recorded prediction is the model applied to the column-wise
scaling — with the same fitted scalers at every step, never refit — of the
last `L` rows of the entire feature pipeline recomputed over that extended
raw series (not just the new row). -/
theorem C2_eth_forecaster (s : ℚ → ℚ) (m : List (List PVal) → ℚ)
    (scalers : List Scaler) (L : ℕ) (orig : List ℚ) (p0 : ℚ) (n : ℕ) :
    (ethLoop s m scalers L orig p0 n).preds.length = n ∧
    (ethLoop s m scalers L orig p0 n).closes =
      orig ++ ((p0 :: (ethLoop s m scalers L orig p0 n).preds).take n).map
        (scalers.getD 0 default).inverse ∧
    (ethLoop s m scalers L orig p0 n).pred =
      (p0 :: (ethLoop s m scalers L orig p0 n).preds).getD n 0 ∧
    (∀ k, k < n →
      (ethLoop s m scalers L orig p0 n).preds.getD k 0 =
        m (scaleRows scalers (lastN L (predictEngineer s
          (orig ++ ((p0 :: (ethLoop s m scalers L orig p0 n).preds).take (k + 1)).map
            (scalers.getD 0 default).inverse))))) := by
  induction n with
  | zero =>
    refine ⟨rfl, by simp [ethLoop], rfl, ?_⟩
    intro k hk
    exact absurd hk (Nat.not_lt_zero k)
  | succ n ih =>
    obtain ⟨ih1, ih2, ih3, ih4⟩ := ih
    set st := ethLoop s m scalers L orig p0 n with hst
    set d := (scalers.getD 0 default).inverse with hd
    have hcons : ∀ q : ℚ, p0 :: (st.preds ++ [q]) = (p0 :: st.preds) ++ [q] := by
      intro q
      rfl
    have hlen0 : (p0 :: st.preds).length = n + 1 := by
      simp [ih1]
    have htake : ∀ q : ℚ, ∀ j, j + 1 ≤ n + 1 →
        (p0 :: (st.preds ++ [q])).take (j + 1) = (p0 :: st.preds).take (j + 1) := by
      intro q j hj
      rw [hcons, List.take_append_of_le_length (by omega)]
    have hcloses2 : st.closes ++ [d st.pred] =
        orig ++ ((p0 :: st.preds).take (n + 1)).map d := by
      rw [ih2, ih3, take_succ_getD (p0 :: st.preds) n (by omega) 0]
      rw [List.map_append, List.append_assoc]
      simp
    constructor
    · show (st.preds ++ [m _]).length = n + 1
      simp [ih1]
    constructor
    · show st.closes ++ [d st.pred] =
        orig ++ ((p0 :: (st.preds ++ [_])).take (n + 1)).map d
      rw [htake _ n (le_refl _), hcloses2]
    constructor
    · show m _ = (p0 :: (st.preds ++ [m _])).getD (n + 1) 0
      rw [hcons]
      have hcat : ((p0 :: st.preds) ++ [m (scaleRows scalers (lastN L (predictEngineer s
          (st.closes ++ [d st.pred]))))]).getD ((p0 :: st.preds).length) 0 =
          m (scaleRows scalers (lastN L (predictEngineer s (st.closes ++ [d st.pred])))) :=
        getD_concat_length _ _ _
      rw [hlen0] at hcat
      exact hcat.symm
    · intro k hk
      rcases Nat.lt_or_ge k n with hkn | hkn
      · show (st.preds ++ [m _]).getD k 0 = m (scaleRows scalers (lastN L (predictEngineer s
            (orig ++ ((p0 :: (st.preds ++ [_])).take (k + 1)).map d))))
        rw [getD_append_left_of_lt _ _ k (by omega) 0, htake _ k (by omega)]
        exact ih4 k hkn
      · have hkeq : k = n := by omega
        subst hkeq
        show (st.preds ++ [m _]).getD k 0 = m (scaleRows scalers (lastN L (predictEngineer s
            (orig ++ ((p0 :: (st.preds ++ [_])).take (k + 1)).map d))))
        rw [htake _ k (le_refl _), ← hcloses2]
        have hcat : (st.preds ++ [m (scaleRows scalers (lastN L (predictEngineer s
            (st.closes ++ [d st.pred]))))]).getD (st.preds.length) 0 =
            m (scaleRows scalers (lastN L (predictEngineer s (st.closes ++ [d st.pred])))) :=
          getD_concat_length _ _ _
        rw [ih1] at hcat
        exact hcat

theorem C2_eth_forecaster_witness :
    (0 < 1) ∧
    ((ethLoop (fun _ => 0) (fun _ => 0) [] 1 [1] 0 1).preds.getD 0 0 =
      (fun _ : List (List PVal) => (0 : ℚ))
        (scaleRows [] (lastN 1 (predictEngineer (fun _ => 0)
          ([1] ++ (((0 : ℚ) :: (ethLoop (fun _ => 0) (fun _ => 0) [] 1 [1] 0 1).preds).take 1).map
            (([] : List Scaler).getD 0 default).inverse))))) :=
  ⟨by norm_num,
    (C2_eth_forecaster (fun _ => 0) (fun _ => 0) [] 1 [1] 0 1).2.2.2 0 (by norm_num)⟩
